import Mathlib

/-!
Verification development for the cbc-binary-toolkit ingestion, deduplication
and state-tracking pipeline.  The Python sources embedded here are
`cbc_binary_toolkit/engine/manager.py` (class `LocalEngineManager`) and
`cbc_binary_toolkit_examples/analysis_util.py` (class `AnalysisUtility`).
Components that only have callers in the sources (DeduplicationComponent,
StateManager, IngestionComponent) are modelled from the specification and
marked as such in their doc comments.
-/

/-- Embedding of a Python value passed to `LocalEngineManager.analyze` as
`binary_metadata`: either a dict (fields modelled as an association list of
string keys and string values, enough to express `binary_metadata.get`) or a
non-dict value. -/
inductive PyValue where
  | dict (fields : List (String × String))
  | nondict (tag : String)
deriving Repr, DecidableEq

/-- Embedding of `binary_metadata.get("sha256", None) if
isinstance(binary_metadata, dict) else None` from `manager.py` line 59:
`None` for a non-dict, otherwise the dict lookup with default `None`. -/
def PyValue.getStr (v : PyValue) (key : String) : Option String :=
  match v with
  | .dict fields => (fields.find? (fun p => p.1 = key)).map Prod.snd
  | .nondict _ => none

/-- Embedding of the `AnalysisResult` dict produced by engines and by the
`SchemaError` handler of `LocalEngineManager.analyze`: `iocs`, `engine_name`,
`binary_hash`, `success`. -/
structure AnalysisResult where
  iocs : List String
  engine_name : String
  binary_hash : Option String
  success : Bool
deriving Repr, DecidableEq

/-- Embedding of `LocalEngineManager.analyze` (`manager.py` lines 49-61).
The schema validator (`BinaryMetadataSchema.validate`, raising `SchemaError`
on failure, modelled as `Except.error`) and the engine (`self.engine.analyze`,
whose uncaught exceptions are modelled as `Except.error`) are parameters,
since their modules are external to the embedded sources.  The second
component of the result records whether the engine was invoked.  Only
`SchemaError` (an error from `validate`) is caught; an error raised by the
engine propagates to the caller. -/
def LocalEngineManager.analyze
    (validate : PyValue → Except String PyValue)
    (engineAnalyze : PyValue → Except String AnalysisResult)
    (engineName : String) (binary_metadata : PyValue) :
    Except String AnalysisResult × Bool :=
  match validate binary_metadata with
  | Except.ok valid_metadata => (engineAnalyze valid_metadata, true)
  | Except.error _ =>
      (Except.ok
        { iocs := []
          engine_name := engineName
          binary_hash := binary_metadata.getStr "sha256"
          success := false }, false)

/-- Claim C1: for every metadata input that fails schema validation,
`LocalEngineManager.analyze` does not invoke the analysis engine and returns
a synthetic `AnalysisResult` with `success = false`, empty `iocs`, and
`binary_hash` equal to the input's `sha256` field when the input is a dict
containing one, and `None` otherwise. -/
theorem analyze_schema_failure_synthesizes_result
    (validate : PyValue → Except String PyValue)
    (engineAnalyze : PyValue → Except String AnalysisResult)
    (engineName : String) (m : PyValue) (e : String)
    (h : validate m = Except.error e) :
    (LocalEngineManager.analyze validate engineAnalyze engineName m).2 = false ∧
    (LocalEngineManager.analyze validate engineAnalyze engineName m).1 =
      Except.ok
        { iocs := []
          engine_name := engineName
          binary_hash := m.getStr "sha256"
          success := false } ∧
    (∀ fields, m = PyValue.dict fields →
      m.getStr "sha256" = (fields.find? (fun p => p.1 = "sha256")).map Prod.snd) ∧
    (∀ tag, m = PyValue.nondict tag → m.getStr "sha256" = none) := by
  unfold LocalEngineManager.analyze
  rw [h]
  refine ⟨rfl, rfl, ?_, ?_⟩
  · intro fields hm
    subst hm
    rfl
  · intro tag hm
    subst hm
    rfl

/-- Witness for C1: a concrete rejecting validator applied to a dict holding
a `sha256` field, and to a non-dict value. -/
theorem analyze_schema_failure_synthesizes_result_witness :
    ((LocalEngineManager.analyze (fun _ => Except.error "SchemaError")
        (fun _ => Except.ok ⟨["ioc"], "Yara", some "aa", true⟩) "Yara"
        (PyValue.dict [("sha256", "405f")])).1 =
      Except.ok ⟨[], "Yara", some "405f", false⟩) ∧
    ((LocalEngineManager.analyze (fun _ => Except.error "SchemaError")
        (fun _ => Except.ok ⟨["ioc"], "Yara", some "aa", true⟩) "Yara"
        (PyValue.nondict "string")).2 = false) := by
  constructor
  · exact (analyze_schema_failure_synthesizes_result
      (fun _ => Except.error "SchemaError")
      (fun _ => Except.ok ⟨["ioc"], "Yara", some "aa", true⟩) "Yara"
      (PyValue.dict [("sha256", "405f")]) "SchemaError" rfl).2.1
  · exact (analyze_schema_failure_synthesizes_result
      (fun _ => Except.error "SchemaError")
      (fun _ => Except.ok ⟨["ioc"], "Yara", some "aa", true⟩) "Yara"
      (PyValue.nondict "string") "SchemaError" rfl).1

/-- Trace of one `AnalysisUtility._process_metadata` loop
(`analysis_util.py` lines 107-120): `dispatched` lists the metadata values
actually passed to `engine_manager.analyze`, `responses` the results passed
to `results_engine.receive_response`, and `aborted` the uncaught exception
that terminated the loop, if any. -/
structure ProcessTrace where
  dispatched : List PyValue
  responses : List AnalysisResult
  aborted : Option String
deriving Repr, DecidableEq

/-- Embedding of `AnalysisUtility._process_metadata` (`analysis_util.py`
lines 107-120): a plain `for` loop over the metadata list calling
`engine_manager.analyze` on each item, with no per-item exception handling —
an exception raised by the call terminates the loop and propagates. -/
def process_metadata (analyzeFn : PyValue → Except String AnalysisResult) :
    List PyValue → ProcessTrace
  | [] => ⟨[], [], none⟩
  | m :: rest =>
    match analyzeFn m with
    | Except.error e => ⟨[m], [], some e⟩
    | Except.ok r =>
      let t := process_metadata analyzeFn rest
      ⟨m :: t.dispatched, r :: t.responses, t.aborted⟩

/-- The `analyze`/`restart` back end dispatches through
`LocalEngineManager.analyze`, keeping only its returned-or-raised value
(the first component). -/
def managerAnalyze (validate : PyValue → Except String PyValue)
    (engineAnalyze : PyValue → Except String AnalysisResult)
    (engineName : String) (m : PyValue) : Except String AnalysisResult :=
  (LocalEngineManager.analyze validate engineAnalyze engineName m).1

/-- A concrete engine whose invocation raises on the first sample metadata
record: used to exhibit the abort-on-engine-error behaviour of
`_process_metadata`. -/
def raisingEngine (m : PyValue) : Except String AnalysisResult :=
  if m = PyValue.dict [("sha256", "aa")] then Except.error "EngineError"
  else Except.ok ⟨[], "Yara", m.getStr "sha256", true⟩

/-- Counterexample to claim C2 as stated: with a metadata list of two records
where the engine invocation raises on the first, `_process_metadata` never
dispatches the second record — the run is aborted by the propagating
exception rather than proceeding to the next record. -/
theorem process_metadata_engine_error_not_isolated :
    (process_metadata
        (managerAnalyze (fun v => Except.ok v) raisingEngine "Yara")
        [PyValue.dict [("sha256", "aa")], PyValue.dict [("sha256", "bb")]]).aborted
      = some "EngineError" ∧
    PyValue.dict [("sha256", "bb")] ∉
      (process_metadata
        (managerAnalyze (fun v => Except.ok v) raisingEngine "Yara")
        [PyValue.dict [("sha256", "aa")], PyValue.dict [("sha256", "bb")]]).dispatched := by
  decide

/-- Claim C2 amended: when the engine invocation raises a terminal error on a
record, `_process_metadata` aborts: the failing record and its predecessors
are the only records dispatched, no response is recorded for the failing
record, and the error propagates out of the loop (main then reports failure);
remaining sibling records are not dispatched. -/
theorem process_metadata_engine_error_aborts
    (analyzeFn : PyValue → Except String AnalysisResult)
    (l1 l2 : List PyValue) (m : PyValue) (e : String)
    (h1 : ∀ x ∈ l1, ∃ r, analyzeFn x = Except.ok r)
    (h2 : analyzeFn m = Except.error e) :
    (process_metadata analyzeFn (l1 ++ m :: l2)).aborted = some e ∧
    (process_metadata analyzeFn (l1 ++ m :: l2)).dispatched = l1 ++ [m] := by
  induction l1 with
  | nil =>
    simp only [List.nil_append]
    unfold process_metadata
    rw [h2]
    exact ⟨rfl, rfl⟩
  | cons x xs ih =>
    obtain ⟨r, hr⟩ := h1 x (List.mem_cons_self x xs)
    have ihx := ih (fun y hy => h1 y (List.mem_cons_of_mem x hy))
    simp only [List.cons_append]
    unfold process_metadata
    rw [hr]
    simp only [ProcessTrace.aborted, ProcessTrace.dispatched]
    exact ⟨ihx.1, by rw [ihx.2]⟩

/-- Witness for the amended C2: engine raising on the second of three
records aborts after dispatching exactly the first two. -/
theorem process_metadata_engine_error_aborts_witness :
    (process_metadata
        (managerAnalyze (fun v => Except.ok v) raisingEngine "Yara")
        ([PyValue.dict [("sha256", "bb")]] ++
          PyValue.dict [("sha256", "aa")] :: [PyValue.dict [("sha256", "cc")]])).aborted
      = some "EngineError" ∧
    (process_metadata
        (managerAnalyze (fun v => Except.ok v) raisingEngine "Yara")
        ([PyValue.dict [("sha256", "bb")]] ++
          PyValue.dict [("sha256", "aa")] :: [PyValue.dict [("sha256", "cc")]])).dispatched
      = [PyValue.dict [("sha256", "bb")]] ++ [PyValue.dict [("sha256", "aa")]] :=
  process_metadata_engine_error_aborts
    (managerAnalyze (fun v => Except.ok v) raisingEngine "Yara")
    [PyValue.dict [("sha256", "bb")]] [PyValue.dict [("sha256", "cc")]]
    (PyValue.dict [("sha256", "aa")]) "EngineError"
    (by
      intro x hx
      simp only [List.mem_singleton] at hx
      subst hx
      exact ⟨⟨[], "Yara", some "bb", true⟩, rfl⟩)
    rfl

/-- Lifecycle states of a HashRecord: PENDING, FETCHING, FETCHED, ANALYZING,
ANALYZED, FAILED, NOT_FOUND. -/
inductive HashStatus where
  | PENDING
  | FETCHING
  | FETCHED
  | ANALYZING
  | ANALYZED
  | FAILED
  | NOT_FOUND
deriving Repr, DecidableEq

/-- The part of a HashRecord that the deduplication classification reads:
`status`, `submitted_at` and `expiration_seconds` (timestamps in seconds,
as naturals). -/
structure DedupRecord where
  status : HashStatus
  submitted_at : Nat
  expiration_seconds : Nat
deriving Repr, DecidableEq

/-- The three classes a candidate hash can fall into at submission time. -/
inductive DedupClass where
  | fresh
  | inFlight
  | alreadyDone
deriving Repr, DecidableEq

/-- Modelled from the spec: the DeduplicationComponent's per-hash
classification (its module is not among the embedded sources; only its caller
`AnalysisUtility._analyze_command` is).  Per the spec's algorithm: absent
record means new; ANALYZED means already done; a FAILED or NOT_FOUND record
is new when `now - submitted_at > expiration_seconds` and in flight
otherwise; every other (non-terminal) status is in flight. -/
def DeduplicationComponent.classify (store : String → Option DedupRecord)
    (now : Nat) (h : String) : DedupClass :=
  match store h with
  | none => DedupClass.fresh
  | some r =>
    match r.status with
    | HashStatus.ANALYZED => DedupClass.alreadyDone
    | HashStatus.FAILED =>
        if now - r.submitted_at > r.expiration_seconds then DedupClass.fresh
        else DedupClass.inFlight
    | HashStatus.NOT_FOUND =>
        if now - r.submitted_at > r.expiration_seconds then DedupClass.fresh
        else DedupClass.inFlight
    | _ => DedupClass.inFlight

/-- Modelled from the spec: `DeduplicationComponent.deduplicate` partitions
the candidate hash list into the new, in-flight and already-done sublists,
preserving the input order within each class. -/
def DeduplicationComponent.deduplicate (store : String → Option DedupRecord)
    (now : Nat) (H : List String) :
    List String × List String × List String :=
  (H.filter (fun h => DeduplicationComponent.classify store now h = DedupClass.fresh),
   H.filter (fun h => DeduplicationComponent.classify store now h = DedupClass.inFlight),
   H.filter (fun h => DeduplicationComponent.classify store now h = DedupClass.alreadyDone))

/-- Claim C3: for every duplicate-free hash set H, deduplication returns
three sets — new, in-flight, already-done — that are pairwise disjoint,
contain no duplicates, and whose union is exactly H. -/
theorem deduplicate_partitions (store : String → Option DedupRecord)
    (now : Nat) (H : List String) (hN : H.Nodup) :
    (DeduplicationComponent.deduplicate store now H).1.Nodup ∧
    (DeduplicationComponent.deduplicate store now H).2.1.Nodup ∧
    (DeduplicationComponent.deduplicate store now H).2.2.Nodup ∧
    (∀ x, ¬(x ∈ (DeduplicationComponent.deduplicate store now H).1 ∧
            x ∈ (DeduplicationComponent.deduplicate store now H).2.1)) ∧
    (∀ x, ¬(x ∈ (DeduplicationComponent.deduplicate store now H).1 ∧
            x ∈ (DeduplicationComponent.deduplicate store now H).2.2)) ∧
    (∀ x, ¬(x ∈ (DeduplicationComponent.deduplicate store now H).2.1 ∧
            x ∈ (DeduplicationComponent.deduplicate store now H).2.2)) ∧
    (∀ x, x ∈ H ↔
      (x ∈ (DeduplicationComponent.deduplicate store now H).1 ∨
       x ∈ (DeduplicationComponent.deduplicate store now H).2.1 ∨
       x ∈ (DeduplicationComponent.deduplicate store now H).2.2)) := by
  unfold DeduplicationComponent.deduplicate
  simp only [List.mem_filter, decide_eq_true_eq]
  refine ⟨hN.filter _, hN.filter _, hN.filter _, ?_, ?_, ?_, ?_⟩
  · rintro x ⟨⟨-, h1⟩, -, h2⟩
    rw [h1] at h2
    exact DedupClass.noConfusion h2
  · rintro x ⟨⟨-, h1⟩, -, h2⟩
    rw [h1] at h2
    exact DedupClass.noConfusion h2
  · rintro x ⟨⟨-, h1⟩, -, h2⟩
    rw [h1] at h2
    exact DedupClass.noConfusion h2
  · intro x
    constructor
    · intro hx
      rcases hc : DeduplicationComponent.classify store now x with - | - | -
      · exact Or.inl ⟨hx, rfl⟩
      · exact Or.inr (Or.inl ⟨hx, rfl⟩)
      · exact Or.inr (Or.inr ⟨hx, rfl⟩)
    · rintro (⟨hx, -⟩ | ⟨hx, -⟩ | ⟨hx, -⟩) <;> exact hx

/-- Witness for C3: the partition property evaluated on a concrete store and
a concrete three-hash set. -/
theorem deduplicate_partitions_witness :
    let store : String → Option DedupRecord := fun h =>
      if h = "aa" then some ⟨HashStatus.ANALYZED, 10, 100⟩
      else if h = "bb" then some ⟨HashStatus.FAILED, 10, 100⟩
      else none
    ([ "aa", "bb", "cc" ] : List String).Nodup ∧
    (∀ x, x ∈ ["aa", "bb", "cc"] ↔
      (x ∈ (DeduplicationComponent.deduplicate store 50 ["aa", "bb", "cc"]).1 ∨
       x ∈ (DeduplicationComponent.deduplicate store 50 ["aa", "bb", "cc"]).2.1 ∨
       x ∈ (DeduplicationComponent.deduplicate store 50 ["aa", "bb", "cc"]).2.2)) := by
  refine ⟨by decide, ?_⟩
  exact (deduplicate_partitions _ 50 ["aa", "bb", "cc"] (by decide)).2.2.2.2.2.2

/-- Claim C4: a hash whose record is FAILED or NOT_FOUND is classified as new
exactly when `now - submitted_at > expiration_seconds`; when
`now - submitted_at <= expiration_seconds` it is classified as in flight
(not retried). -/
theorem classify_expiry (store : String → Option DedupRecord) (now : Nat)
    (h : String) (r : DedupRecord) (hr : store h = some r)
    (hs : r.status = HashStatus.FAILED ∨ r.status = HashStatus.NOT_FOUND) :
    (DeduplicationComponent.classify store now h = DedupClass.fresh ↔
      now - r.submitted_at > r.expiration_seconds) ∧
    (now - r.submitted_at ≤ r.expiration_seconds →
      DeduplicationComponent.classify store now h = DedupClass.inFlight) := by
  obtain ⟨st, sub, ttl⟩ := r
  dsimp only at hs ⊢
  have hcl : DeduplicationComponent.classify store now h =
      if now - sub > ttl then DedupClass.fresh else DedupClass.inFlight := by
    unfold DeduplicationComponent.classify
    rw [hr]
    rcases hs with hs | hs <;> subst hs <;> rfl
  rw [hcl]
  refine ⟨⟨?_, ?_⟩, ?_⟩
  · intro hc
    by_contra hx
    rw [if_neg hx] at hc
    exact DedupClass.noConfusion hc
  · intro hx
    rw [if_pos hx]
  · intro hle
    rw [if_neg (Nat.not_lt.mpr hle)]

/-- Witness for C4: a FAILED record submitted at time 10 with TTL 100 is in
flight at time 50 and new at time 200. -/
theorem classify_expiry_witness :
    let store : String → Option DedupRecord := fun h =>
      if h = "bb" then some ⟨HashStatus.FAILED, 10, 100⟩ else none
    DeduplicationComponent.classify store 50 "bb" = DedupClass.inFlight ∧
    DeduplicationComponent.classify store 200 "bb" = DedupClass.fresh := by
  intro store
  constructor
  · exact (classify_expiry store 50 "bb" ⟨HashStatus.FAILED, 10, 100⟩ rfl
      (Or.inl rfl)).2 (by decide)
  · exact (classify_expiry store 200 "bb" ⟨HashStatus.FAILED, 10, 100⟩ rfl
      (Or.inl rfl)).1.mpr (by decide)

/-- HashRecord, one per distinct content hash ever submitted: `sha256`,
lifecycle `status`, `submitted_at` timestamp, per-submission TTL
`expiration_seconds`, optional `metadata` payload, optional `error` summary
and owning `run_id`. -/
structure HashRecord where
  sha256 : String
  status : HashStatus
  submitted_at : Nat
  expiration_seconds : Nat
  metadata : Option PyValue
  error : Option String
  run_id : String
deriving Repr, DecidableEq

/-- Status of a run: IN_PROGRESS, COMPLETED or FAILED. -/
inductive RunStatus where
  | IN_PROGRESS
  | COMPLETED
  | FAILED
deriving Repr, DecidableEq

/-- RunRecord, one per invocation of analyze/restart: `run_id`, `created_at`
timestamp, nullable `completed_at`, the snapshot of owned `hash_ids`, and a
run `status`. -/
structure RunRecord where
  run_id : String
  created_at : Nat
  completed_at : Option Nat
  hash_ids : List String
  status : RunStatus
deriving Repr, DecidableEq

/-- The contents of the durable state store: hash records and run records. -/
structure StateDb where
  hashes : List HashRecord
  runs : List RunRecord
deriving Repr, DecidableEq

/-- Modelled from the spec: `StateManager.prune(cutoff_timestamp)` deletes
every HashRecord and RunRecord with `submitted_at`/`created_at` at or before
the cutoff and returns the count removed (the state module is not among the
embedded sources; only its caller `AnalysisUtility.main` is). -/
def StateManager.prune (db : StateDb) (cutoff : Nat) : StateDb × Nat :=
  (⟨db.hashes.filter (fun r => cutoff < r.submitted_at),
    db.runs.filter (fun r => cutoff < r.created_at)⟩,
   db.hashes.countP (fun r => r.submitted_at ≤ cutoff) +
     db.runs.countP (fun r => r.created_at ≤ cutoff))

/-- Over a list, the number of elements failing a predicate equals the length
minus the number kept by filtering with it. -/
theorem countP_not_eq_length_sub_length_filter {α : Type} (l : List α)
    (p : α → Bool) :
    l.countP (fun a => ! p a) = l.length - (l.filter p).length := by
  induction l with
  | nil => rfl
  | cons x xs ih =>
    rw [List.countP_cons, List.filter_cons, List.length_cons]
    by_cases hx : p x
    · rw [if_pos hx, List.length_cons, hx]
      simp only [Bool.not_true, Bool.false_eq_true, if_false]
      have := List.length_filter_le p xs
      omega
    · rw [if_neg hx]
      rw [Bool.not_eq_true] at hx
      rw [hx]
      simp only [Bool.not_false, if_true]
      have := List.length_filter_le p xs
      omega

/-- Claim C6: `prune(cutoff)` removes exactly the hash records with
`submitted_at ≤ cutoff` and run records with `created_at ≤ cutoff`, keeps
every newer record (unchanged, in submission order), returns the number of
records removed, and a second prune at the same cutoff removes nothing and
leaves the store unchanged. -/
theorem prune_removes_exactly (db : StateDb) (cutoff : Nat) :
    (∀ r : HashRecord, r ∈ (StateManager.prune db cutoff).1.hashes ↔
      (r ∈ db.hashes ∧ ¬ r.submitted_at ≤ cutoff)) ∧
    (∀ r : RunRecord, r ∈ (StateManager.prune db cutoff).1.runs ↔
      (r ∈ db.runs ∧ ¬ r.created_at ≤ cutoff)) ∧
    ((StateManager.prune db cutoff).1.hashes =
      db.hashes.filter (fun r => cutoff < r.submitted_at) ∧
     (StateManager.prune db cutoff).1.runs =
      db.runs.filter (fun r => cutoff < r.created_at)) ∧
    (StateManager.prune db cutoff).2 =
      (db.hashes.length - (StateManager.prune db cutoff).1.hashes.length) +
      (db.runs.length - (StateManager.prune db cutoff).1.runs.length) ∧
    StateManager.prune (StateManager.prune db cutoff).1 cutoff =
      ((StateManager.prune db cutoff).1, 0) := by
  refine ⟨?_, ?_, ⟨rfl, rfl⟩, ?_, ?_⟩
  · intro r
    simp only [StateManager.prune, List.mem_filter, decide_eq_true_eq]
    constructor
    · rintro ⟨h1, h2⟩
      exact ⟨h1, by omega⟩
    · rintro ⟨h1, h2⟩
      exact ⟨h1, by omega⟩
  · intro r
    simp only [StateManager.prune, List.mem_filter, decide_eq_true_eq]
    constructor
    · rintro ⟨h1, h2⟩
      exact ⟨h1, by omega⟩
    · rintro ⟨h1, h2⟩
      exact ⟨h1, by omega⟩
  · show db.hashes.countP _ + db.runs.countP _ = _
    have hh : db.hashes.countP (fun r => r.submitted_at ≤ cutoff) =
        db.hashes.length -
          (db.hashes.filter (fun r => cutoff < r.submitted_at)).length := by
      rw [← countP_not_eq_length_sub_length_filter]
      apply List.countP_congr
      intro a _
      simp only [decide_eq_true_eq, Bool.not_eq_true', decide_eq_false_iff_not]
      omega
    have hr : db.runs.countP (fun r => r.created_at ≤ cutoff) =
        db.runs.length -
          (db.runs.filter (fun r => cutoff < r.created_at)).length := by
      rw [← countP_not_eq_length_sub_length_filter]
      apply List.countP_congr
      intro a _
      simp only [decide_eq_true_eq, Bool.not_eq_true', decide_eq_false_iff_not]
      omega
    rw [hh, hr]
    rfl
  · simp only [StateManager.prune]
    have k1 : (db.hashes.filter (fun r => cutoff < r.submitted_at)).filter
        (fun r => cutoff < r.submitted_at) =
        db.hashes.filter (fun r => cutoff < r.submitted_at) := by
      rw [List.filter_eq_self]
      intro a ha
      exact (List.mem_filter.mp ha).2
    have k2 : (db.runs.filter (fun r => cutoff < r.created_at)).filter
        (fun r => cutoff < r.created_at) =
        db.runs.filter (fun r => cutoff < r.created_at) := by
      rw [List.filter_eq_self]
      intro a ha
      exact (List.mem_filter.mp ha).2
    have h1 : (db.hashes.filter (fun r => cutoff < r.submitted_at)).countP
        (fun r => r.submitted_at ≤ cutoff) = 0 := by
      rw [List.countP_eq_zero]
      intro a ha
      have := (List.mem_filter.mp ha).2
      simp only [decide_eq_true_eq] at this ⊢
      omega
    have h2 : (db.runs.filter (fun r => cutoff < r.created_at)).countP
        (fun r => r.created_at ≤ cutoff) = 0 := by
      rw [List.countP_eq_zero]
      intro a ha
      have := (List.mem_filter.mp ha).2
      simp only [decide_eq_true_eq] at this ⊢
      omega
    rw [k1, k2, h1, h2]

/-- Modelled from the spec: `IngestionComponent.reload` for the restart
command (the ingestion module is not among the embedded sources; only its
caller `AnalysisUtility._restart_command` is).  For a prior incomplete run it
reconstructs the metadata list from the records already FETCHED without
re-fetching them, and re-queues the records still PENDING or FETCHING for
another fetch pass (marking them FETCHING); every other record — in
particular every ANALYZED one — is left untouched. -/
def IngestionComponent.reload (db : StateDb) (run_id : String) :
    List HashRecord × List HashRecord × StateDb :=
  let owned := db.hashes.filter (fun r => r.run_id = run_id)
  let reused := owned.filter (fun r => r.status = HashStatus.FETCHED)
  let requeued := owned.filter
    (fun r => r.status = HashStatus.PENDING ∨ r.status = HashStatus.FETCHING)
  (reused, requeued,
   ⟨db.hashes.map (fun r =>
      if r.run_id = run_id ∧
         (r.status = HashStatus.PENDING ∨ r.status = HashStatus.FETCHING)
      then { r with status := HashStatus.FETCHING } else r),
    db.runs⟩)

/-- Claim C7: restart re-fetches only the records of the run still PENDING
or FETCHING (and all of them), reuses without re-fetching exactly the
records already FETCHED, and leaves every ANALYZED record unchanged in the
store. -/
theorem reload_refetches_only_unfinished (db : StateDb) (run_id : String) :
    (∀ r : HashRecord, r ∈ (IngestionComponent.reload db run_id).2.1 ↔
      (r ∈ db.hashes ∧ r.run_id = run_id ∧
        (r.status = HashStatus.PENDING ∨ r.status = HashStatus.FETCHING))) ∧
    (∀ r : HashRecord, r ∈ (IngestionComponent.reload db run_id).1 ↔
      (r ∈ db.hashes ∧ r.run_id = run_id ∧ r.status = HashStatus.FETCHED)) ∧
    (∀ r : HashRecord, r ∈ (IngestionComponent.reload db run_id).1 →
      r ∉ (IngestionComponent.reload db run_id).2.1) ∧
    (IngestionComponent.reload db run_id).2.2.hashes =
      db.hashes.map (fun r =>
        if r.run_id = run_id ∧
           (r.status = HashStatus.PENDING ∨ r.status = HashStatus.FETCHING)
        then { r with status := HashStatus.FETCHING } else r) ∧
    (∀ r : HashRecord, r.status = HashStatus.ANALYZED → r ∈ db.hashes →
      r ∈ (IngestionComponent.reload db run_id).2.2.hashes) ∧
    (IngestionComponent.reload db run_id).2.2.hashes.length =
      db.hashes.length := by
  refine ⟨?_, ?_, ?_, rfl, ?_, by
    simp only [IngestionComponent.reload, List.length_map]⟩
  · intro r
    simp only [IngestionComponent.reload, List.mem_filter, decide_eq_true_eq]
    constructor
    · rintro ⟨⟨h1, h2⟩, h3⟩
      exact ⟨h1, h2, h3⟩
    · rintro ⟨h1, h2, h3⟩
      exact ⟨⟨h1, h2⟩, h3⟩
  · intro r
    simp only [IngestionComponent.reload, List.mem_filter, decide_eq_true_eq]
    constructor
    · rintro ⟨⟨h1, h2⟩, h3⟩
      exact ⟨h1, h2, h3⟩
    · rintro ⟨h1, h2, h3⟩
      exact ⟨⟨h1, h2⟩, h3⟩
  · intro r hre hrq
    simp only [IngestionComponent.reload, List.mem_filter,
      decide_eq_true_eq] at hre hrq
    rcases hrq.2 with h | h
    · rw [hre.2] at h
      exact HashStatus.noConfusion h
    · rw [hre.2] at h
      exact HashStatus.noConfusion h
  · intro r hst hmem
    simp only [IngestionComponent.reload]
    rw [List.mem_map]
    refine ⟨r, hmem, ?_⟩
    rw [if_neg ?_]
    rintro ⟨-, h | h⟩
    · rw [hst] at h
      exact HashStatus.noConfusion h
    · rw [hst] at h
      exact HashStatus.noConfusion h

/-- Embedding of Python's `reply.lower().strip()` on an input line, at the
character-list level: ASCII lowercasing followed by stripping leading and
trailing whitespace. -/
def pyLowerStrip (s : String) : List Char :=
  (((s.toList.map Char.toLower).dropWhile
      Char.isWhitespace).reverse.dropWhile Char.isWhitespace).reverse

/-- Embedding of `AnalysisUtility._yes_or_no` (`analysis_util.py` lines
88-105), with the successive user input lines as an explicit list: a reply
starting (after lowercasing and stripping) with `y` answers true, with `n`
false, anything else logs and retries on the next line.  `none` models an
uncaught exception: `IndexError` from `reply[0]` on an empty reply, or input
exhaustion. -/
def yes_or_no : List String → Option Bool
  | [] => none
  | reply :: rest =>
    match pyLowerStrip reply with
    | [] => none
    | c :: _ =>
      if c = 'y' then some true
      else if c = 'n' then some false
      else yes_or_no rest

/-- The configuration facts that decide whether `LocalEngineManager.__init__`
(`manager.py` lines 36-43) succeeds: truthiness of `engine.local`, whether
`dynamic_create(engine._provider)` resolves, and whether the factory's
`create_engine` succeeds. -/
structure EngineConfig where
  localEngine : Bool
  providerResolvable : Bool
  factoryOk : Bool
deriving Repr, DecidableEq

/-- Embedding of `LocalEngineManager.__init__` (`manager.py` lines 36-43):
raise `InitializationError` when `engine.local` is falsy, then resolve the
provider with `dynamic_create` (raising on failure) and construct the engine
through the factory (raising on failure). -/
def LocalEngineManager.init (cfg : EngineConfig) : Except String Unit :=
  if cfg.localEngine = false then Except.error "InitializationError"
  else if cfg.providerResolvable = false then Except.error "ProviderLookupError"
  else if cfg.factoryOk = false then Except.error "EngineCreateError"
  else Except.ok ()

/-- Modelled from the spec: the tools-layer component initialization wrapping
`LocalEngineManager` construction for the `analyze` and `restart` commands.
The tools module that logs and surfaces the failure is not among the embedded
sources (only `_init_components` in `analysis_util.py` and the functional
test asserting the message are); per the spec, a failure to resolve or
construct the engine is fatal and surfaced as "Failed to create Local Engine
Manager. Check your configuration". -/
def init_components (cfg : EngineConfig) : Except String Unit :=
  match LocalEngineManager.init cfg with
  | Except.error _ =>
      Except.error "Failed to create Local Engine Manager. Check your configuration"
  | Except.ok _ => Except.ok ()

/-- The three subcommands of the utility: `analyze`, `restart`, and `clear`
with its optional `--timestamp` argument. -/
inductive Command where
  | analyze
  | restart
  | clear (timestamp : Option Nat)
deriving Repr, DecidableEq

/-- Outcome of one `AnalysisUtility.main` invocation: the value returned
(`none` models Python's bare `return`, returning `None`), the final state
store, whether `StateManager.prune` was invoked, and the surfaced error
message, if any (the `except` branch prints the exception). -/
structure MainOutcome where
  retcode : Option Nat
  db : StateDb
  pruneInvoked : Bool
  surfaced : Option String
deriving Repr, DecidableEq

/-- Embedding of `AnalysisUtility.main` (`analysis_util.py` lines 149-199).
`now` is the wall clock read by `datetime.now()`; `replies` are the user's
confirmation input lines; `pipeline` abstracts the dedup-ingest-dispatch body
of `_analyze_command`/`_restart_command` (their components are external),
returning the state it leaves behind and the exception it raises, if any.
For `analyze` and `restart`, components are initialized first
(`_init_components`), then the pipeline runs; any exception is caught by the
`except` branch, which prints it and returns 1.  For `clear`, a missing
`--timestamp` defaults to `datetime.now()`; denial of confirmation logs and
does a bare `return` (value `None`) without touching the store; confirmation
invokes `StateManager.prune` on the cutoff and falls through to `return 0`;
an exception while reading the confirmation is caught and yields 1. -/
def AnalysisUtility.main (now : Nat) (replies : List String)
    (cfg : EngineConfig) (pipeline : StateDb → StateDb × Option String)
    (db : StateDb) : Command → MainOutcome
  | Command.analyze =>
    match init_components cfg with
    | Except.error msg => ⟨some 1, db, false, some msg⟩
    | Except.ok _ =>
      match pipeline db with
      | (db2, some msg) => ⟨some 1, db2, false, some msg⟩
      | (db2, none) => ⟨some 0, db2, false, none⟩
  | Command.restart =>
    match init_components cfg with
    | Except.error msg => ⟨some 1, db, false, some msg⟩
    | Except.ok _ =>
      match pipeline db with
      | (db2, some msg) => ⟨some 1, db2, false, some msg⟩
      | (db2, none) => ⟨some 0, db2, false, none⟩
  | Command.clear ts =>
    let timestamp := ts.getD now
    match yes_or_no replies with
    | some true => ⟨some 0, (StateManager.prune db timestamp).1, true, none⟩
    | some false => ⟨none, db, false, none⟩
    | none => ⟨some 1, db, false, some "InputError"⟩

/-- Claim C5: `StateManager.prune` is invoked by the clear command only after
the user explicitly confirms; when confirmation is denied, prune is never
invoked and the stored state is left unchanged. -/
theorem clear_prune_requires_confirmation (now : Nat) (replies : List String)
    (cfg : EngineConfig) (pipeline : StateDb → StateDb × Option String)
    (db : StateDb) (ts : Option Nat) :
    ((AnalysisUtility.main now replies cfg pipeline db
        (Command.clear ts)).pruneInvoked = true →
      yes_or_no replies = some true) ∧
    (yes_or_no replies = some false →
      (AnalysisUtility.main now replies cfg pipeline db
        (Command.clear ts)).pruneInvoked = false ∧
      (AnalysisUtility.main now replies cfg pipeline db
        (Command.clear ts)).db = db) := by
  constructor
  · intro hp
    rcases h : yes_or_no replies with - | b
    · simp only [AnalysisUtility.main, h] at hp
      exact Bool.noConfusion hp
    · cases b
      · simp only [AnalysisUtility.main, h] at hp
        exact Bool.noConfusion hp
      · rfl
  · intro hf
    simp only [AnalysisUtility.main, hf]
    exact ⟨trivial, trivial⟩

/-- A sample store: one ANALYZED record submitted at time 10 and its
IN_PROGRESS run created at time 5. -/
def sampleDb : StateDb :=
  ⟨[⟨"aa", HashStatus.ANALYZED, 10, 100, none, none, "r1"⟩],
   [⟨"r1", 5, none, ["aa"], RunStatus.IN_PROGRESS⟩]⟩

/-- A pipeline body that completes without raising and without touching the
store. -/
def idPipeline : StateDb → StateDb × Option String := fun db => (db, none)

/-- Witness for C5: with the reply sequence "maybe", "N" the confirmation is
denied, prune is not invoked and the sample store is unchanged. -/
theorem clear_prune_requires_confirmation_witness :
    (AnalysisUtility.main 100 ["maybe", "N"] ⟨true, true, true⟩ idPipeline
      sampleDb (Command.clear none)).pruneInvoked = false ∧
    (AnalysisUtility.main 100 ["maybe", "N"] ⟨true, true, true⟩ idPipeline
      sampleDb (Command.clear none)).db = sampleDb :=
  (clear_prune_requires_confirmation 100 ["maybe", "N"] ⟨true, true, true⟩
    idPipeline sampleDb none).2 (by decide)

/-- Claim C9: when the engine provider cannot be resolved or the engine
cannot be constructed, the engine-dependent commands `analyze` and `restart`
fail with return code 1 before any state mutation, surfacing "Failed to
create Local Engine Manager. Check your configuration". -/
theorem engine_init_failure_is_fatal (now : Nat) (replies : List String)
    (cfg : EngineConfig) (pipeline : StateDb → StateDb × Option String)
    (db : StateDb) (h : LocalEngineManager.init cfg ≠ Except.ok ()) :
    AnalysisUtility.main now replies cfg pipeline db Command.analyze =
      ⟨some 1, db, false,
        some "Failed to create Local Engine Manager. Check your configuration"⟩ ∧
    AnalysisUtility.main now replies cfg pipeline db Command.restart =
      ⟨some 1, db, false,
        some "Failed to create Local Engine Manager. Check your configuration"⟩ := by
  have hic : init_components cfg = Except.error
      "Failed to create Local Engine Manager. Check your configuration" := by
    unfold init_components
    rcases hi : LocalEngineManager.init cfg with e | u
    · rfl
    · cases u
      exact absurd hi h
  constructor
  · simp only [AnalysisUtility.main, hic]
  · simp only [AnalysisUtility.main, hic]

/-- Witness for C9: a configuration whose provider does not resolve makes
`analyze` fail fatally with the surfaced message and the store untouched. -/
theorem engine_init_failure_is_fatal_witness :
    AnalysisUtility.main 100 [] ⟨true, false, true⟩ idPipeline sampleDb
      Command.analyze =
      ⟨some 1, sampleDb, false,
        some "Failed to create Local Engine Manager. Check your configuration"⟩ :=
  (engine_init_failure_is_fatal 100 [] ⟨true, false, true⟩ idPipeline sampleDb
    (by intro hco; simp [LocalEngineManager.init] at hco)).1

/-- Claim C10: when the `--timestamp` argument of `clear` is omitted, the
cutoff passed to prune defaults to the wall-clock time at invocation, so a
confirmed clear removes every record submitted at or before that moment. -/
theorem clear_default_timestamp_is_now (now : Nat) (replies : List String)
    (cfg : EngineConfig) (pipeline : StateDb → StateDb × Option String)
    (db : StateDb) (hc : yes_or_no replies = some true) :
    AnalysisUtility.main now replies cfg pipeline db (Command.clear none) =
      ⟨some 0, (StateManager.prune db now).1, true, none⟩ ∧
    ∀ r : HashRecord, r ∈ db.hashes → r.submitted_at ≤ now →
      r ∉ (AnalysisUtility.main now replies cfg pipeline db
        (Command.clear none)).db.hashes := by
  have hm : AnalysisUtility.main now replies cfg pipeline db
      (Command.clear none) =
      ⟨some 0, (StateManager.prune db now).1, true, none⟩ := by
    simp only [AnalysisUtility.main, hc, Option.getD]
  refine ⟨hm, ?_⟩
  intro r hr hle hmem
  rw [hm] at hmem
  simp only [StateManager.prune, List.mem_filter, decide_eq_true_eq] at hmem
  omega

/-- Witness for C10: a confirmed clear at time 100 with no timestamp removes
the sample record submitted at time 10. -/
theorem clear_default_timestamp_is_now_witness :
    (⟨"aa", HashStatus.ANALYZED, 10, 100, none, none, "r1"⟩ : HashRecord) ∉
      (AnalysisUtility.main 100 ["y"] ⟨true, true, true⟩ idPipeline sampleDb
        (Command.clear none)).db.hashes :=
  (clear_default_timestamp_is_now 100 ["y"] ⟨true, true, true⟩ idPipeline
    sampleDb (by decide)).2
    ⟨"aa", HashStatus.ANALYZED, 10, 100, none, none, "r1"⟩
    (by decide) (by decide)

/-- Claim C8, at the input where the code diverges from it: a `clear` run in
which the user denies confirmation completes without any run-aborting error,
yet `main` does a bare `return` and yields `None` rather than the documented
completion code 0; for contrast, a confirmed clear returns 0, a successful
`analyze` returns 0, and an `analyze` aborted by engine initialization
returns 1. -/
theorem main_clear_denied_returns_none :
    (AnalysisUtility.main 100 ["n"] ⟨true, true, true⟩ idPipeline sampleDb
      (Command.clear none)).retcode = none ∧
    (AnalysisUtility.main 100 ["n"] ⟨true, true, true⟩ idPipeline sampleDb
      (Command.clear none)).retcode ≠ some 0 ∧
    (AnalysisUtility.main 100 ["y"] ⟨true, true, true⟩ idPipeline sampleDb
      (Command.clear none)).retcode = some 0 ∧
    (AnalysisUtility.main 100 [] ⟨true, true, true⟩ idPipeline sampleDb
      Command.analyze).retcode = some 0 ∧
    (AnalysisUtility.main 100 [] ⟨true, false, true⟩ idPipeline sampleDb
      Command.analyze).retcode = some 1 := by
  decide
